import Mathlib

attribute [local semireducible] Rat.add Rat.sub Rat.mul Rat.inv Rat.ofScientific

/-
Verification of the consensus PDF-outline pipeline of
src/process_pdfs_optimized.py.

Modelling conventions:
- Python floats are modelled as exact rationals; all numeric literals of the
  source (0.25, 1.6, 1.3, 0.8, 100.0, 8.0, 0.4) are exact in this model.
- A Python str is modelled as its sequence of characters (List Char, written
  with string literals via String.data); str.strip() is pyStrip, len(s) is
  List.length, s.count(' ') counts space characters, s.endswith('.') checks
  the last character.
- A BoundingBox is the Python object built by BoundingBox.__init__: the
  constructor trims the text and caches area = (x2-x1)*(y2-y1) in a field,
  exactly like the Python __init__.
- Object identity (Python "is", used by create_document_outline to skip the
  title box) is modelled by list position: the outline builder enumerates its
  input and skips exactly the enumeration index of the chosen title entry.
  This is faithful because the pipeline appends every detection object to the
  input list exactly once, so positions and object identities coincide.
-/

/-- The BoundingBox record of the source: geometry, text, confidence,
estimated font size, and the area cached by the constructor. -/
structure BoundingBox where
  x1 : ℚ
  y1 : ℚ
  x2 : ℚ
  y2 : ℚ
  text : List Char
  confidence : ℚ
  font_size : ℚ
  area : ℚ
deriving DecidableEq

/-- Python str.strip(): drop whitespace from both ends. -/
def pyStrip (s : List Char) : List Char :=
  ((s.dropWhile Char.isWhitespace).reverse.dropWhile Char.isWhitespace).reverse

/-- BoundingBox.__init__: strips the text and caches (x2-x1)*(y2-y1). -/
def mkBoundingBox (x1 y1 x2 y2 : ℚ) (text : List Char) (confidence font_size : ℚ) : BoundingBox :=
  ⟨x1, y1, x2, y2, pyStrip text, confidence, font_size, (x2 - x1) * (y2 - y1)⟩

/-- The cached area field agrees with the geometric area.  This holds for
every box built by the constructor (mkBoundingBox_cachedArea below); the
source never mutates the field. -/
def cachedArea (b : BoundingBox) : Prop :=
  b.area = (b.x2 - b.x1) * (b.y2 - b.y1)

/-- Edge-comparison fast rejection used as the first test of
calculate_iou_fast: the two rectangles do not intersect (with the source's
non-strict comparisons, touching rectangles also count as disjoint). -/
def fastReject (box1 box2 : BoundingBox) : Prop :=
  box1.x2 ≤ box2.x1 ∨ box2.x2 ≤ box1.x1 ∨ box1.y2 ≤ box2.y1 ∨ box2.y2 ≤ box1.y1

instance (b1 b2 : BoundingBox) : Decidable (fastReject b1 b2) :=
  inferInstanceAs (Decidable (b1.x2 ≤ b2.x1 ∨ b2.x2 ≤ b1.x1 ∨ b1.y2 ≤ b2.y1 ∨ b2.y2 ≤ b1.y1))

/-- Width of the intersection rectangle, clamped at 0 (max(0, ix2-ix1)). -/
def interW (box1 box2 : BoundingBox) : ℚ :=
  max 0 (min box1.x2 box2.x2 - max box1.x1 box2.x1)

/-- Height of the intersection rectangle, clamped at 0 (max(0, iy2-iy1)). -/
def interH (box1 box2 : BoundingBox) : ℚ :=
  max 0 (min box1.y2 box2.y2 - max box1.y1 box2.y1)

/-- calculate_iou_fast of the source: fast rejection, then intersection
area, then intersection / union with a zero-union guard.  The union uses the
cached area fields, as in the source. -/
def calculate_iou_fast (box1 box2 : BoundingBox) : ℚ :=
  if fastReject box1 box2 then 0
  else
    let intersection := interW box1 box2 * interH box1 box2
    if intersection = 0 then 0
    else
      let union := box1.area + box2.area - intersection
      if 0 < union then intersection / union else 0

/-
Consensus engine: fast_ensemble_voting.

The Python function scans the flattened detection list by index with a
used-index set: each unused index seeds a cluster, the inner loop adds every
later index that is unused (at inner-loop entry; the indices the inner loop
itself marks are distinct from every later candidate, so checking against
the entry set is equivalent) and whose IoU with the seed exceeds the
threshold.  Here the scan is the structural recursion clustersLoop over the
enumerated list, carrying the used-index list.
-/

/-- Python max(xs, key=key) for the nonempty list x :: xs: fold keeping the
current maximum and replacing it only on a strictly larger key, so ties keep
the first maximum encountered. -/
def foldMaxBy {α : Type} (key : α → ℚ) (x : α) (xs : List α) : α :=
  xs.foldl (fun best u => if key best < key u then u else best) x

/-- The cluster opened at seed p: the seed followed by every later entry
whose index is not yet used and whose IoU with the seed's box exceeds the
threshold (the inner loop of the source). -/
def clusterOf (θ : ℚ) (used : List ℕ) (p : ℕ × BoundingBox) (rest : List (ℕ × BoundingBox)) :
    List (ℕ × BoundingBox) :=
  p :: rest.filter (fun q => decide (q.1 ∉ used ∧ θ < calculate_iou_fast p.2 q.2))

/-- The outer loop of fast_ensemble_voting: scan the enumerated detections,
skipping used indices, opening a cluster at each unused one and marking its
members used. -/
def clustersLoop (θ : ℚ) : List (ℕ × BoundingBox) → List ℕ → List (List (ℕ × BoundingBox))
  | [], _ => []
  | p :: rest, used =>
    if p.1 ∈ used then clustersLoop θ rest used
    else clusterOf θ used p rest ::
      clustersLoop θ rest (used ++ (clusterOf θ used p rest).map Prod.fst)

/-- max(cluster, key=lambda b: b.confidence) of the source. -/
def clusterRep (c : List (ℕ × BoundingBox)) : BoundingBox :=
  match c.map Prod.snd with
  | [] => ⟨0, 0, 0, 0, [], 0, 0, 0⟩
  | b :: bs => foldMaxBy BoundingBox.confidence b bs

/-- fast_ensemble_voting of the source: flatten the per-engine detection
lists (dict values in insertion order), cluster greedily at IoU threshold
1/4 = 0.25, and emit the maximum-confidence member of each cluster in the
order clusters were closed. -/
def fast_ensemble_voting (ocr_results : List (List BoundingBox)) : List BoundingBox :=
  (clustersLoop (1/4) ocr_results.flatten.enum []).map clusterRep

/-- Detection D1 of the spec example: confidence 0.9. -/
def C1D1 : BoundingBox := ⟨0, 0, 10, 10, "D1".data, 9/10, 8, 100⟩

/-- Detection D2 of the spec example: confidence 0.95, IoU with D1 = 0.5. -/
def C1D2 : BoundingBox := ⟨0, 0, 10, 20, "D2".data, 19/20, 8, 200⟩

/-- Detection D3 of the spec example: disjoint from both, confidence 0.3. -/
def C1D3 : BoundingBox := ⟨100, 100, 110, 110, "D3".data, 3/10, 8, 100⟩

/-
Outline builder: create_document_outline.

Python sorted() and the title-box identity check are modelled as follows:
sorted() is a stable ascending sort (stableSort below inserts each element
after all elements that do not strictly exceed it); the input is enumerated
and the entry chosen as title is skipped by its enumeration index, which
models the source's object-identity test "box is title_box".
-/

inductive HeadingLevel where
  | H1
  | H2
deriving DecidableEq

structure OutlineEntry where
  level : HeadingLevel
  text : List Char
  page : ℕ
deriving DecidableEq

structure OutlineResult where
  title : List Char
  outline : List OutlineEntry
deriving DecidableEq

/-- Insert x before the first element strictly greater than it (by lt), so
equal-keyed elements keep their original relative order. -/
def stableInsert {α : Type} (lt : α → α → Bool) (x : α) : List α → List α
  | [] => [x]
  | y :: ys => if lt x y then x :: y :: ys else y :: stableInsert lt x ys

/-- Python sorted(): stable ascending insertion sort. -/
def stableSort {α : Type} (lt : α → α → Bool) (l : List α) : List α :=
  l.foldl (fun acc x => stableInsert lt x acc) []

/-- Python s.endswith('.'): the last character is a period (False for the
empty string). -/
def endsWithDot (s : List Char) : Bool :=
  s.getLast? == some '.'

/-- The title entry: Python max(first_page_boxes, key=font_size) over the
enumerated entries whose page index is 0, None when page 0 has no
detections.  The enumeration index records which input position (object)
was chosen. -/
def titleEntry? (input : List (ℕ × BoundingBox)) : Option (ℕ × ℕ × BoundingBox) :=
  match input.enum.filter (fun t => t.2.1 == 0) with
  | [] => none
  | t :: ts => some (foldMaxBy (fun u => u.2.2.font_size) t ts)

/-- document_title of the source: the title box's text, "" when None. -/
def documentTitleOf (input : List (ℕ × BoundingBox)) : List Char :=
  match titleEntry? input with
  | none => []
  | some t => t.2.2.text

/-- The input position of the title box (models its object identity). -/
def titleIdxOf (input : List (ℕ × BoundingBox)) : Option ℕ :=
  (titleEntry? input).map (fun t => t.1)

/-- all_font_sizes of the source: font sizes of every detection whose text
has more than 2 characters, in input order. -/
def fontSizesOf (input : List (ℕ × BoundingBox)) : List ℚ :=
  (input.filter (fun p => decide (2 < p.2.text.length))).map (fun p => p.2.font_size)

/-- sorted(all_font_sizes). -/
def sortedSizes (input : List (ℕ × BoundingBox)) : List ℚ :=
  stableSort (fun a b => decide (a < b)) (fontSizesOf input)

/-- median_size of the source: sorted_sizes[len(sorted_sizes) // 2]
(positional median; 0 only as the out-of-range default of the model). -/
def medianSize (input : List (ℕ × BoundingBox)) : ℚ :=
  (sortedSizes input).getD ((sortedSizes input).length / 2) 0

/-- h1_threshold = median_size * 1.6. -/
def h1Threshold (input : List (ℕ × BoundingBox)) : ℚ :=
  medianSize input * (8/5)

/-- h2_threshold = median_size * 1.3. -/
def h2Threshold (input : List (ℕ × BoundingBox)) : ℚ :=
  medianSize input * (13/10)

/-- The sort key of the outline loop: (page index, vertical position),
compared lexicographically. -/
def entryLt (a b : ℕ × ℕ × BoundingBox) : Bool :=
  decide (a.2.1 < b.2.1 ∨ (a.2.1 = b.2.1 ∧ a.2.2.y1 < b.2.2.y1))

/-- sorted_boxes of the source, with enumeration indices carried along. -/
def sortedEntriesOf (input : List (ℕ × BoundingBox)) : List (ℕ × ℕ × BoundingBox) :=
  stableSort entryLt input.enum

/-- One iteration of the outline loop of the source: skip the title entry
(by identity), apply the three text reject tests, then classify by font
size against the two thresholds. -/
def codeEntry (tIdx : Option ℕ) (h1 h2 : ℚ) (t : ℕ × ℕ × BoundingBox) : Option OutlineEntry :=
  if tIdx = some t.1 then none
  else if t.2.2.text.length < 3 ∨ 120 < t.2.2.text.length ∨
      endsWithDot t.2.2.text = true ∨ 10 < t.2.2.text.count ' ' then none
  else if h1 ≤ t.2.2.font_size then some ⟨HeadingLevel.H1, t.2.2.text, t.2.1⟩
  else if h2 ≤ t.2.2.font_size then some ⟨HeadingLevel.H2, t.2.2.text, t.2.1⟩
  else none

/-- create_document_outline of the source. -/
def create_document_outline (input : List (ℕ × BoundingBox)) : OutlineResult :=
  if input = [] then ⟨[], []⟩
  else if fontSizesOf input = [] then ⟨documentTitleOf input, []⟩
  else ⟨documentTitleOf input,
    (sortedEntriesOf input).filterMap
      (codeEntry (titleIdxOf input) (h1Threshold input) (h2Threshold input))⟩

/-- Concrete input for C5: the title box on page 0 and a value-identical
copy of it on page 1, plus three small boxes that keep the median low. -/
def C5input : List (ℕ × BoundingBox) :=
  [(0, ⟨0, 0, 50, 20, "Chapter One".data, 9/10, 20, 1000⟩),
   (1, ⟨0, 0, 50, 20, "Chapter One".data, 9/10, 20, 1000⟩),
   (1, ⟨0, 30, 20, 40, "abcd".data, 8/10, 10, 200⟩),
   (1, ⟨0, 60, 20, 70, "abcd".data, 8/10, 10, 200⟩),
   (1, ⟨0, 90, 20, 100, "abcd".data, 8/10, 10, 200⟩)]

/-- Concrete input for C6: font sizes 30, 8, 10, 12, 10 (in scrambled
order) on texts longer than 2 characters. -/
def C6input : List (ℕ × BoundingBox) :=
  [(0, ⟨0, 0, 10, 10, "aaa".data, 1, 30, 100⟩),
   (0, ⟨0, 20, 10, 30, "bbb".data, 1, 8, 100⟩),
   (1, ⟨0, 0, 10, 10, "ccc".data, 1, 10, 100⟩),
   (1, ⟨0, 20, 10, 30, "ddd".data, 1, 12, 100⟩),
   (2, ⟨0, 0, 10, 10, "eee".data, 1, 10, 100⟩)]

/-- Transcription of the spec's candidate filter and classification (spec
4.5 steps 3 and 5): a candidate needs text length in [3,120], no trailing
period, at most 10 spaces, and font size at least the H2 threshold; it is
H1 at or above the H1 threshold and H2 otherwise. -/
def specHeadingLevel (h1 h2 : ℚ) (b : BoundingBox) : Option HeadingLevel :=
  if 3 ≤ b.text.length ∧ b.text.length ≤ 120 ∧ endsWithDot b.text = false ∧
      b.text.count ' ' ≤ 10 ∧ h2 ≤ b.font_size
  then some (if h1 ≤ b.font_size then HeadingLevel.H1 else HeadingLevel.H2)
  else none

/-- Concrete input for C7's witness. -/
def C7input : List (ℕ × BoundingBox) :=
  [(0, ⟨0, 0, 30, 12, "Intro".data, 1, 20, 360⟩),
   (1, ⟨0, 0, 30, 12, "abcd".data, 1, 10, 360⟩),
   (1, ⟨0, 20, 30, 32, "efgh".data, 1, 10, 360⟩)]

/-
Dispatcher (process_single_pdf_fast): one job per (page, engine), tagged at
submission time; completed jobs are routed into results_by_page by their
tag.  Arrival order is modelled as the order of the completion list fed to
routeCompletions; the source's as_completed loop corresponds to an
arbitrary permutation of the submission order.
-/

inductive Engine where
  | tesseract
  | easyocr
deriving DecidableEq

/-- The submission loop: for each page index, one tesseract job then one
easyocr job. -/
def submitJobs (n : ℕ) : List (ℕ × Engine) :=
  (List.range n).flatMap (fun i => [(i, Engine.tesseract), (i, Engine.easyocr)])

/-- results_by_page plus its inner per-engine dicts, as a function. -/
def PageMap : Type := ℕ → Engine → Option (List BoundingBox)

/-- results_by_page[page][engine] = boxes for one completed job. -/
def routeStep (m : PageMap) (c : (ℕ × Engine) × List BoundingBox) : PageMap :=
  fun p e => if p = c.1.1 ∧ e = c.1.2 then some c.2 else m p e

/-- The as_completed collection loop over a given arrival order. -/
def routeCompletions (cs : List ((ℕ × Engine) × List BoundingBox)) : PageMap :=
  cs.foldl routeStep (fun _ _ => none)

/-- The completed jobs, tagged with their submission keys, arriving in
submission order. -/
def completionsOf (n : ℕ) (results : ℕ × Engine → List BoundingBox) :
    List ((ℕ × Engine) × List BoundingBox) :=
  (submitJobs n).map (fun k => (k, results k))

/-
process_single_pdf_fast and the recognizer adapters.

The page renderer and the OCR engines are external collaborators: a page is
an opaque buffer (PageImage), extract_pdf_pages_fast's output is the pages
argument (it returns [] when extraction fails), and each engine's raw
output is input data to its adapter.  The outcome record captures what the
function does: the JSON written (None when nothing is written), the process
exit status (sys.exit(1) happens only in the except-branch, which no path
of this pure model can reach; the no-pages branch is a plain return, so the
status stays 0), and whether logger.error was called.
-/

/-- An opaque page image buffer. -/
def PageImage : Type := ℕ

structure ProcOutcome where
  written : Option OutlineResult
  exitCode : ℕ
  errorLogged : Bool
deriving DecidableEq

/-- The per-page consensus collection loop of the source: pages in
ascending index order, per page the ensemble vote over the tesseract and
easyocr detection lists. -/
def collectConsensus (run : Engine → PageImage → List BoundingBox)
    (pages : List PageImage) : List (ℕ × BoundingBox) :=
  pages.enum.flatMap (fun pi =>
    (fast_ensemble_voting [run Engine.tesseract pi.2, run Engine.easyocr pi.2]).map
      (fun b => (pi.1, b)))

/-- process_single_pdf_fast of the source: with no extracted pages it logs
an error and returns (writing nothing, exit status unchanged at 0);
otherwise it writes the outline built from the per-page consensus boxes. -/
def process_single_pdf_fast (pages : List PageImage)
    (run : Engine → PageImage → List BoundingBox) : ProcOutcome :=
  match pages with
  | [] => ⟨none, 0, true⟩
  | p :: rest => ⟨some (create_document_outline (collectConsensus run (p :: rest))), 0, false⟩

/-- One row of pytesseract.image_to_data output: text, integer confidence,
and the left/top/width/height of the detection. -/
structure TessRow where
  text : List Char
  conf : ℤ
  left : ℚ
  top : ℚ
  width : ℚ
  height : ℚ
deriving DecidableEq

/-- run_tesseract of the source: keep rows whose stripped text is longer
than 1 and whose confidence exceeds 30; box (x, y, x+w, y+h), confidence
conf/100, font size max(8, 0.8*h). -/
def run_tesseract (rows : List TessRow) : List BoundingBox :=
  rows.filterMap (fun r =>
    if 1 < (pyStrip r.text).length ∧ 30 < r.conf then
      some (mkBoundingBox r.left r.top (r.left + r.width) (r.top + r.height)
        (pyStrip r.text) ((r.conf : ℚ) / 100) (max 8 (r.height * (4/5))))
    else none)

/-- One EasyOCR readtext result: the four corner points of the detected
quadrilateral, the text and the confidence. -/
structure EasyRow where
  p1 : ℚ × ℚ
  p2 : ℚ × ℚ
  p3 : ℚ × ℚ
  p4 : ℚ × ℚ
  text : List Char
  conf : ℚ
deriving DecidableEq

/-- run_easyocr of the source: [] when the worker model is missing;
otherwise keep results with confidence above 0.4 and stripped text longer
than 1; box from the min/max of the corner coordinates, font size
max(8, 0.8*(y2-y1)). -/
def run_easyocr (readerReady : Bool) (rows : List EasyRow) : List BoundingBox :=
  if readerReady then
    rows.filterMap (fun r =>
      if 2/5 < r.conf ∧ 1 < (pyStrip r.text).length then
        some (mkBoundingBox
          (min (min r.p1.1 r.p2.1) (min r.p3.1 r.p4.1))
          (min (min r.p1.2 r.p2.2) (min r.p3.2 r.p4.2))
          (max (max r.p1.1 r.p2.1) (max r.p3.1 r.p4.1))
          (max (max r.p1.2 r.p2.2) (max r.p3.2 r.p4.2))
          r.text r.conf
          (max 8 ((max (max r.p1.2 r.p2.2) (max r.p3.2 r.p4.2) -
            min (min r.p1.2 r.p2.2) (min r.p3.2 r.p4.2)) * (4/5))))
      else none)
  else []

theorem mkBoundingBox_cachedArea (x1 y1 x2 y2 : ℚ) (t : List Char) (c f : ℚ) :
    cachedArea (mkBoundingBox x1 y1 x2 y2 t c f) := rfl

theorem calculate_iou_fast_eq (box1 box2 : BoundingBox) :
    calculate_iou_fast box1 box2 =
      if fastReject box1 box2 then 0
      else if interW box1 box2 * interH box1 box2 = 0 then 0
      else if 0 < box1.area + box2.area - interW box1 box2 * interH box1 box2 then
        (interW box1 box2 * interH box1 box2) /
          (box1.area + box2.area - interW box1 box2 * interH box1 box2)
      else 0 := rfl

theorem iou_zero_of_fastReject (b1 b2 : BoundingBox) (h : fastReject b1 b2) :
    calculate_iou_fast b1 b2 = 0 := by
  rw [calculate_iou_fast_eq, if_pos h]

theorem interW_nonneg (b1 b2 : BoundingBox) : 0 ≤ interW b1 b2 := le_max_left 0 _

theorem interH_nonneg (b1 b2 : BoundingBox) : 0 ≤ interH b1 b2 := le_max_left 0 _

/-- When the intersection area is positive, each box's geometric area
dominates it: the intersection rectangle is contained in each box. -/
theorem inter_le_area (b1 b2 : BoundingBox) (hb : cachedArea b1)
    (hpos : interW b1 b2 * interH b1 b2 ≠ 0) :
    interW b1 b2 * interH b1 b2 ≤ b1.area := by
  have hw : 0 ≤ interW b1 b2 := interW_nonneg b1 b2
  have hh : 0 ≤ interH b1 b2 := interH_nonneg b1 b2
  have hwpos : 0 < interW b1 b2 := by
    rcases lt_or_eq_of_le hw with h | h
    · exact h
    · exact absurd (by rw [← h, zero_mul]) hpos
  have hhpos : 0 < interH b1 b2 := by
    rcases lt_or_eq_of_le hh with h | h
    · exact h
    · exact absurd (by rw [← h, mul_zero]) hpos
  have hwle : interW b1 b2 ≤ b1.x2 - b1.x1 := by
    have h1 : min b1.x2 b2.x2 - max b1.x1 b2.x1 ≤ b1.x2 - b1.x1 := by
      have := min_le_left b1.x2 b2.x2
      have := le_max_left b1.x1 b2.x1
      linarith
    have h2 : interW b1 b2 = min b1.x2 b2.x2 - max b1.x1 b2.x1 ∨ interW b1 b2 = 0 := by
      unfold interW
      rcases max_choice 0 (min b1.x2 b2.x2 - max b1.x1 b2.x1) with h | h
      · exact Or.inr h
      · exact Or.inl h
    rcases h2 with h2 | h2
    · rw [h2]; exact h1
    · rw [h2] at hwpos; exact absurd hwpos (lt_irrefl 0)
  have hhle : interH b1 b2 ≤ b1.y2 - b1.y1 := by
    have h1 : min b1.y2 b2.y2 - max b1.y1 b2.y1 ≤ b1.y2 - b1.y1 := by
      have := min_le_left b1.y2 b2.y2
      have := le_max_left b1.y1 b2.y1
      linarith
    have h2 : interH b1 b2 = min b1.y2 b2.y2 - max b1.y1 b2.y1 ∨ interH b1 b2 = 0 := by
      unfold interH
      rcases max_choice 0 (min b1.y2 b2.y2 - max b1.y1 b2.y1) with h | h
      · exact Or.inr h
      · exact Or.inl h
    rcases h2 with h2 | h2
    · rw [h2]; exact h1
    · rw [h2] at hhpos; exact absurd hhpos (lt_irrefl 0)
  rw [hb]
  exact mul_le_mul hwle hhle (le_of_lt hhpos) (by linarith)

/-- The symmetric bound for the second box. -/
theorem inter_le_area' (b1 b2 : BoundingBox) (hb : cachedArea b2)
    (hpos : interW b1 b2 * interH b1 b2 ≠ 0) :
    interW b1 b2 * interH b1 b2 ≤ b2.area := by
  have hW : interW b1 b2 = interW b2 b1 := by
    unfold interW; rw [min_comm b1.x2 b2.x2, max_comm b1.x1 b2.x1]
  have hH : interH b1 b2 = interH b2 b1 := by
    unfold interH; rw [min_comm b1.y2 b2.y2, max_comm b1.y1 b2.y1]
  rw [hW, hH]
  exact inter_le_area b2 b1 hb (by rw [← hW, ← hH]; exact hpos)

theorem iou_nonneg (b1 b2 : BoundingBox) : 0 ≤ calculate_iou_fast b1 b2 := by
  rw [calculate_iou_fast_eq]
  split_ifs with h1 h2 h3
  · exact le_refl 0
  · exact le_refl 0
  · exact div_nonneg (mul_nonneg (interW_nonneg b1 b2) (interH_nonneg b1 b2)) (le_of_lt h3)
  · exact le_refl 0

theorem iou_le_one (b1 b2 : BoundingBox) (h1 : cachedArea b1) (h2 : cachedArea b2) :
    calculate_iou_fast b1 b2 ≤ 1 := by
  rw [calculate_iou_fast_eq]
  split_ifs with hr hz hu
  · exact zero_le_one
  · exact zero_le_one
  · have hle1 := inter_le_area b1 b2 h1 hz
    have hle2 := inter_le_area' b1 b2 h2 hz
    rw [div_le_one hu]
    linarith
  · exact zero_le_one

theorem iou_self_eq_one (b : BoundingBox) (hx : b.x1 < b.x2) (hy : b.y1 < b.y2)
    (hA : cachedArea b) : calculate_iou_fast b b = 1 := by
  rw [calculate_iou_fast_eq]
  have hrej : ¬ fastReject b b := by
    unfold fastReject
    push_neg
    exact ⟨hx, hx, hy, hy⟩
  have hW : interW b b = b.x2 - b.x1 := by
    unfold interW
    rw [min_self, max_self]
    exact max_eq_right (by linarith)
  have hH : interH b b = b.y2 - b.y1 := by
    unfold interH
    rw [min_self, max_self]
    exact max_eq_right (by linarith)
  have hpos : 0 < interW b b * interH b b := by
    rw [hW, hH]
    exact mul_pos (by linarith) (by linarith)
  rw [if_neg hrej, if_neg (ne_of_gt hpos)]
  have harea : b.area = interW b b * interH b b := by
    rw [hW, hH]; exact hA
  have hun : b.area + b.area - interW b b * interH b b = interW b b * interH b b := by
    rw [harea]; ring
  rw [hun, if_pos hpos, div_self (ne_of_gt hpos)]

theorem iou_zero_of_degenerate (b1 b2 : BoundingBox) (h1 : cachedArea b1)
    (hz : b1.area = 0) : calculate_iou_fast b1 b2 = 0 := by
  rw [calculate_iou_fast_eq]
  split_ifs with hr hzero hu
  · rfl
  · rfl
  · exfalso
    apply hzero
    have : (b1.x2 - b1.x1) * (b1.y2 - b1.y1) = 0 := by rw [← h1]; exact hz
    rcases mul_eq_zero.mp this with h | h
    · have hx : b1.x1 = b1.x2 := by linarith [sub_eq_zero.mp h]
      have hWz : interW b1 b2 = 0 := by
        unfold interW
        apply max_eq_left
        have h1' : min b1.x2 b2.x2 ≤ b1.x2 := min_le_left _ _
        have h2' : b1.x1 ≤ max b1.x1 b2.x1 := le_max_left _ _
        linarith
      rw [hWz, zero_mul]
    · have hy : b1.y1 = b1.y2 := by linarith [sub_eq_zero.mp h]
      have hHz : interH b1 b2 = 0 := by
        unfold interH
        apply max_eq_left
        have h1' : min b1.y2 b2.y2 ≤ b1.y2 := min_le_left _ _
        have h2' : b1.y1 ≤ max b1.y1 b2.y1 := le_max_left _ _
        linarith
      rw [hHz, mul_zero]
  · rfl

/-- C3: calculate_iou_fast returns 0 for edge-disjoint rectangles, returns
intersection over union otherwise (hence 1 for an identical rectangle of
positive extent), returns 0 instead of dividing when the union area is zero
(both boxes degenerate), and always lies in [0, 1]. -/
theorem C3_iou_contract (b1 b2 : BoundingBox) (h1 : cachedArea b1) (h2 : cachedArea b2) :
    (fastReject b1 b2 → calculate_iou_fast b1 b2 = 0) ∧
    (b1 = b2 → b1.x1 < b1.x2 → b1.y1 < b1.y2 → calculate_iou_fast b1 b2 = 1) ∧
    (b1.area = 0 → b2.area = 0 → calculate_iou_fast b1 b2 = 0) ∧
    (¬ fastReject b1 b2 → interW b1 b2 * interH b1 b2 ≠ 0 →
      calculate_iou_fast b1 b2 =
        (interW b1 b2 * interH b1 b2) /
          (b1.area + b2.area - interW b1 b2 * interH b1 b2)) ∧
    0 ≤ calculate_iou_fast b1 b2 ∧ calculate_iou_fast b1 b2 ≤ 1 := by
  refine ⟨iou_zero_of_fastReject b1 b2, ?_, ?_, ?_, iou_nonneg b1 b2, iou_le_one b1 b2 h1 h2⟩
  · intro he hx hy
    subst he
    exact iou_self_eq_one b1 hx hy h1
  · intro hz1 _
    exact iou_zero_of_degenerate b1 b2 h1 hz1
  · intro hr hz
    rw [calculate_iou_fast_eq, if_neg hr, if_neg hz]
    have hpos : 0 < interW b1 b2 * interH b1 b2 :=
      lt_of_le_of_ne (mul_nonneg (interW_nonneg b1 b2) (interH_nonneg b1 b2)) (Ne.symm hz)
    have hle2 := inter_le_area' b1 b2 h2 hz
    have hu : 0 < b1.area + b2.area - interW b1 b2 * interH b1 b2 := by
      have hle1 := inter_le_area b1 b2 h1 hz
      linarith
    rw [if_pos hu]

/-- Witness for C3 at concrete boxes: the spec's disjoint pair
(0,0,10,10) vs (20,20,30,30) gives 0, an identical positive box gives 1,
two degenerate boxes give 0, and the bounds hold. -/
theorem C3_iou_contract_witness :
    calculate_iou_fast ⟨0, 0, 10, 10, "a".data, 1, 8, 100⟩ ⟨20, 20, 30, 30, "b".data, 1, 8, 100⟩ = 0 ∧
    calculate_iou_fast ⟨0, 0, 10, 10, "a".data, 1, 8, 100⟩ ⟨0, 0, 10, 10, "a".data, 1, 8, 100⟩ = 1 ∧
    calculate_iou_fast ⟨0, 0, 0, 0, "a".data, 1, 8, 0⟩ ⟨0, 0, 0, 0, "a".data, 1, 8, 0⟩ = 0 ∧
    0 ≤ calculate_iou_fast ⟨0, 0, 10, 10, "a".data, 1, 8, 100⟩ ⟨5, 5, 30, 30, "b".data, 1, 8, 625⟩ ∧
    calculate_iou_fast ⟨0, 0, 10, 10, "a".data, 1, 8, 100⟩ ⟨5, 5, 30, 30, "b".data, 1, 8, 625⟩ ≤ 1 := by
  refine ⟨?_, ?_, ?_, ?_, ?_⟩
  · exact (C3_iou_contract ⟨0, 0, 10, 10, "a".data, 1, 8, 100⟩ ⟨20, 20, 30, 30, "b".data, 1, 8, 100⟩
      (by norm_num [cachedArea]) (by norm_num [cachedArea])).1 (by decide)
  · exact (C3_iou_contract ⟨0, 0, 10, 10, "a".data, 1, 8, 100⟩ ⟨0, 0, 10, 10, "a".data, 1, 8, 100⟩
      (by norm_num [cachedArea]) (by norm_num [cachedArea])).2.1 rfl (by decide) (by decide)
  · exact (C3_iou_contract ⟨0, 0, 0, 0, "a".data, 1, 8, 0⟩ ⟨0, 0, 0, 0, "a".data, 1, 8, 0⟩
      (by norm_num [cachedArea]) (by norm_num [cachedArea])).2.2.1 rfl rfl
  · exact (C3_iou_contract ⟨0, 0, 10, 10, "a".data, 1, 8, 100⟩ ⟨5, 5, 30, 30, "b".data, 1, 8, 625⟩
      (by norm_num [cachedArea]) (by norm_num [cachedArea])).2.2.2.2.1
  · exact (C3_iou_contract ⟨0, 0, 10, 10, "a".data, 1, 8, 100⟩ ⟨5, 5, 30, 30, "b".data, 1, 8, 625⟩
      (by norm_num [cachedArea]) (by norm_num [cachedArea])).2.2.2.2.2

/-- C4: calculate_iou_fast is symmetric in its two arguments. -/
theorem C4_iou_symm (a b : BoundingBox) :
    calculate_iou_fast a b = calculate_iou_fast b a := by
  rw [calculate_iou_fast_eq, calculate_iou_fast_eq]
  have hrej : fastReject a b ↔ fastReject b a := by
    unfold fastReject; tauto
  have hW : interW a b = interW b a := by
    unfold interW; rw [min_comm a.x2 b.x2, max_comm a.x1 b.x1]
  have hH : interH a b = interH b a := by
    unfold interH; rw [min_comm a.y2 b.y2, max_comm a.y1 b.y1]
  rw [hW, hH, add_comm a.area b.area]
  exact if_congr hrej rfl rfl

theorem foldMaxBy_cons {α : Type} (key : α → ℚ) (x c : α) (cs : List α) :
    foldMaxBy key x (c :: cs) = foldMaxBy key (if key x < key c then c else x) cs := rfl

theorem foldMaxBy_mem {α : Type} (key : α → ℚ) (xs : List α) :
    ∀ x, foldMaxBy key x xs ∈ x :: xs := by
  induction xs with
  | nil => intro x; simp [foldMaxBy]
  | cons c cs ih =>
    intro x
    rw [foldMaxBy_cons]
    rcases List.mem_cons.mp (ih (if key x < key c then c else x)) with h | h
    · rw [h]
      split
      · exact List.mem_cons_of_mem x (List.mem_cons_self c cs)
      · exact List.mem_cons_self x (c :: cs)
    · exact List.mem_cons_of_mem x (List.mem_cons_of_mem c h)

theorem foldMaxBy_le {α : Type} (key : α → ℚ) (xs : List α) :
    ∀ x, ∀ c ∈ x :: xs, key c ≤ key (foldMaxBy key x xs) := by
  induction xs with
  | nil =>
    intro x c hc
    rcases List.mem_cons.mp hc with h | h
    · rw [h]; exact le_refl _
    · simp at h
  | cons c cs ih =>
    intro x d hd
    rw [foldMaxBy_cons]
    have hpick : key x ≤ key (if key x < key c then c else x) ∧
        key c ≤ key (if key x < key c then c else x) := by
      split
      · constructor
        · next h => exact le_of_lt h
        · exact le_refl _
      · constructor
        · exact le_refl _
        · next h => exact le_of_not_lt h
    have hbase := ih (if key x < key c then c else x)
    rcases List.mem_cons.mp hd with h | h
    · rw [h]
      exact le_trans hpick.1 (hbase _ (List.mem_cons_self _ _))
    · rcases List.mem_cons.mp h with h' | h'
      · rw [h']
        exact le_trans hpick.2 (hbase _ (List.mem_cons_self _ _))
      · exact hbase d (List.mem_cons_of_mem _ h')

theorem foldMaxBy_first {α : Type} (key : α → ℚ) (xs : List α) :
    ∀ x, ((x :: xs).dropWhile (fun c => decide (key c < key (foldMaxBy key x xs)))).head? =
      some (foldMaxBy key x xs) := by
  induction xs with
  | nil =>
    intro x
    simp [foldMaxBy, List.dropWhile_cons]
  | cons c cs ih =>
    intro x
    rw [foldMaxBy_cons]
    by_cases hxc : key x < key c
    · have hpick : (if key x < key c then c else x) = c := if_pos hxc
      rw [hpick]
      have hcr : key c ≤ key (foldMaxBy key c cs) :=
        foldMaxBy_le key cs c c (List.mem_cons_self _ _)
      have hx : key x < key (foldMaxBy key c cs) := lt_of_lt_of_le hxc hcr
      rw [List.dropWhile_cons]
      rw [if_pos (by simpa using hx)]
      exact ih c
    · have hpick : (if key x < key c then c else x) = x := if_neg hxc
      rw [hpick]
      have hbase := ih x
      by_cases hxr : key x < key (foldMaxBy key x cs)
      · rw [List.dropWhile_cons] at hbase ⊢
        rw [if_pos (by simpa using hxr)] at hbase
        rw [if_pos (by simpa using hxr)]
        have hcx : key c ≤ key x := le_of_not_lt hxc
        have hcr : key c < key (foldMaxBy key x cs) := lt_of_le_of_lt hcx hxr
        rw [List.dropWhile_cons, if_pos (by simpa using hcr)]
        exact hbase
      · rw [List.dropWhile_cons] at hbase ⊢
        rw [if_neg (by simpa using hxr)] at hbase
        rw [if_neg (by simpa using hxr)]
        simpa using hbase

theorem clustersLoop_nil (θ : ℚ) (used : List ℕ) : clustersLoop θ [] used = [] := rfl

theorem clustersLoop_cons (θ : ℚ) (p : ℕ × BoundingBox) (rest : List (ℕ × BoundingBox))
    (used : List ℕ) :
    clustersLoop θ (p :: rest) used =
      if p.1 ∈ used then clustersLoop θ rest used
      else clusterOf θ used p rest ::
        clustersLoop θ rest (used ++ (clusterOf θ used p rest).map Prod.fst) := rfl

theorem clustersLoop_subset (θ : ℚ) :
    ∀ (l : List (ℕ × BoundingBox)) (used : List ℕ), ∀ c ∈ clustersLoop θ l used,
      ∀ p ∈ c, p ∈ l := by
  intro l
  induction l with
  | nil => intro used c hc; rw [clustersLoop_nil] at hc; simp at hc
  | cons q rest ih =>
    intro used c hc p hp
    rw [clustersLoop_cons] at hc
    by_cases hq : q.1 ∈ used
    · rw [if_pos hq] at hc
      exact List.mem_cons_of_mem q (ih used c hc p hp)
    · rw [if_neg hq] at hc
      rcases List.mem_cons.mp hc with h | h
      · rw [h] at hp
        rcases List.mem_cons.mp hp with h' | h'
        · rw [h']; exact List.mem_cons_self q rest
        · exact List.mem_cons_of_mem q (List.mem_of_mem_filter h')
      · exact List.mem_cons_of_mem q (ih _ c h p hp)

theorem clustersLoop_ne_nil (θ : ℚ) :
    ∀ (l : List (ℕ × BoundingBox)) (used : List ℕ), ∀ c ∈ clustersLoop θ l used, c ≠ [] := by
  intro l
  induction l with
  | nil => intro used c hc; rw [clustersLoop_nil] at hc; simp at hc
  | cons q rest ih =>
    intro used c hc
    rw [clustersLoop_cons] at hc
    by_cases hq : q.1 ∈ used
    · rw [if_pos hq] at hc; exact ih used c hc
    · rw [if_neg hq] at hc
      rcases List.mem_cons.mp hc with h | h
      · rw [h]; exact List.cons_ne_nil _ _
      · exact ih _ c h

theorem clustersLoop_length (θ : ℚ) :
    ∀ (l : List (ℕ × BoundingBox)) (used : List ℕ),
      (clustersLoop θ l used).length ≤ l.length := by
  intro l
  induction l with
  | nil => intro used; rw [clustersLoop_nil]; exact le_refl 0
  | cons q rest ih =>
    intro used
    rw [clustersLoop_cons]
    by_cases hq : q.1 ∈ used
    · rw [if_pos hq]
      exact le_trans (ih used) (Nat.le_succ rest.length)
    · rw [if_neg hq]
      exact Nat.succ_le_succ (ih _)

theorem clustersLoop_avoid (θ : ℚ) :
    ∀ (l : List (ℕ × BoundingBox)) (used : List ℕ), ∀ c ∈ clustersLoop θ l used,
      ∀ i ∈ c.map Prod.fst, i ∉ used := by
  intro l
  induction l with
  | nil => intro used c hc; rw [clustersLoop_nil] at hc; simp at hc
  | cons q rest ih =>
    intro used c hc i hi
    rw [clustersLoop_cons] at hc
    by_cases hq : q.1 ∈ used
    · rw [if_pos hq] at hc
      exact ih used c hc i hi
    · rw [if_neg hq] at hc
      rcases List.mem_cons.mp hc with h | h
      · rw [h] at hi
        rcases List.mem_map.mp hi with ⟨p, hp, hpi⟩
        rcases List.mem_cons.mp hp with h' | h'
        · rw [← hpi, h']; exact hq
        · have hfil := (List.mem_filter.mp h').2
          have hprop := of_decide_eq_true hfil
          rw [← hpi]; exact hprop.1
      · have := ih _ c h i hi
        intro hmem
        exact this (List.mem_append_left _ hmem)

theorem clustersLoop_pairwise (θ : ℚ) :
    ∀ (l : List (ℕ × BoundingBox)) (used : List ℕ),
      List.Pairwise (fun c1 c2 => ∀ i ∈ c1.map Prod.fst, i ∉ c2.map Prod.fst)
        (clustersLoop θ l used) := by
  intro l
  induction l with
  | nil => intro used; rw [clustersLoop_nil]; exact List.Pairwise.nil
  | cons q rest ih =>
    intro used
    rw [clustersLoop_cons]
    by_cases hq : q.1 ∈ used
    · rw [if_pos hq]; exact ih used
    · rw [if_neg hq]
      refine List.Pairwise.cons ?_ (ih _)
      intro c2 hc2 i hi hic2
      have havoid := clustersLoop_avoid θ rest _ c2 hc2 i hic2
      exact havoid (List.mem_append_right used hi)

/-- C1: fast_ensemble_voting flattens the per-engine lists, scans in
original order seeding a cluster at each unused detection, adds every later
unused detection whose IoU with the seed strictly exceeds 0.25, and emits
each cluster's maximum-confidence member with ties broken by the first
encountered in scan order; on the spec's example D1 (0.9), D2 (0.95,
overlapping D1 by 0.5), D3 (disjoint, 0.3) the output is exactly [D2, D3]. -/
theorem C1_consensus :
    fast_ensemble_voting [[C1D1, C1D2], [C1D3]] = [C1D2, C1D3] ∧
    (∀ results : List (List BoundingBox),
      fast_ensemble_voting results =
        (clustersLoop (1/4) results.flatten.enum []).map clusterRep) ∧
    (∀ results : List (List BoundingBox),
      ∀ c ∈ clustersLoop (1/4) results.flatten.enum [],
        ∀ b bs, c.map Prod.snd = b :: bs →
          (∀ d ∈ b :: bs, d.confidence ≤ (clusterRep c).confidence) ∧
          ((b :: bs).dropWhile
              (fun d => decide (d.confidence < (clusterRep c).confidence))).head? =
            some (clusterRep c)) := by
  refine ⟨by decide, fun results => rfl, ?_⟩
  intro results c hc b bs hmap
  have hrep : clusterRep c = foldMaxBy BoundingBox.confidence b bs := by
    unfold clusterRep
    rw [hmap]
  rw [hrep]
  exact ⟨foldMaxBy_le BoundingBox.confidence bs b, foldMaxBy_first BoundingBox.confidence bs b⟩

/-- Witness for C1 at the one-detection input [[D1]]: the single cluster's
representative dominates and is first among maximal-confidence members. -/
theorem C1_consensus_witness :
    C1D1.confidence ≤ (clusterRep [(0, C1D1)]).confidence ∧
    ([C1D1].dropWhile
        (fun d => decide (d.confidence < (clusterRep [(0, C1D1)]).confidence))).head? =
      some (clusterRep [(0, C1D1)]) := by
  have h := C1_consensus.2.2 [[C1D1]] [(0, C1D1)] (by decide) C1D1 [] rfl
  exact ⟨h.1 C1D1 (List.mem_cons_self _ _), h.2⟩

/-- C10: every consensus output detection is one of the flattened input
detections, the clusters partition the used indices (pairwise disjoint, so
each input detection joins at most one cluster), the output is never longer
than the input, and an empty input gives an empty output. -/
theorem C10_voting_invariants (results : List (List BoundingBox)) :
    (∀ b ∈ fast_ensemble_voting results, b ∈ results.flatten) ∧
    List.Pairwise (fun c1 c2 => ∀ i ∈ c1.map Prod.fst, i ∉ c2.map Prod.fst)
      (clustersLoop (1/4) results.flatten.enum []) ∧
    (fast_ensemble_voting results).length ≤ results.flatten.length ∧
    (results.flatten = [] → fast_ensemble_voting results = []) := by
  refine ⟨?_, clustersLoop_pairwise (1/4) results.flatten.enum [], ?_, ?_⟩
  · intro b hb
    unfold fast_ensemble_voting at hb
    rcases List.mem_map.mp hb with ⟨c, hc, hrep⟩
    have hne := clustersLoop_ne_nil (1/4) results.flatten.enum [] c hc
    rcases c with _ | ⟨q, cs⟩
    · exact absurd rfl hne
    · have hmap : (q :: cs).map Prod.snd = q.2 :: cs.map Prod.snd := rfl
      have hrepc : clusterRep (q :: cs) = foldMaxBy BoundingBox.confidence q.2 (cs.map Prod.snd) := by
        unfold clusterRep
        rw [hmap]
      have hmem : clusterRep (q :: cs) ∈ q.2 :: cs.map Prod.snd := by
        rw [hrepc]
        exact foldMaxBy_mem BoundingBox.confidence (cs.map Prod.snd) q.2
      have hmem' : clusterRep (q :: cs) ∈ (q :: cs).map Prod.snd := by
        rw [hmap]; exact hmem
      rcases List.mem_map.mp hmem' with ⟨p, hp, hps⟩
      have hpl : p ∈ results.flatten.enum :=
        clustersLoop_subset (1/4) results.flatten.enum [] (q :: cs) hc p hp
      have : p.2 ∈ results.flatten.enum.map Prod.snd := List.mem_map_of_mem Prod.snd hpl
      rw [List.enum_map_snd] at this
      rw [← hrep, ← hps]
      exact this
  · unfold fast_ensemble_voting
    rw [List.length_map]
    calc (clustersLoop (1/4) results.flatten.enum []).length
        ≤ results.flatten.enum.length := clustersLoop_length (1/4) results.flatten.enum []
      _ = results.flatten.length := List.enum_length
  · intro h
    unfold fast_ensemble_voting
    rw [h]
    rfl

/-- Witness for C10: concrete instantiations of the membership and the
empty-input conclusions. -/
theorem C10_voting_invariants_witness :
    (⟨0, 0, 1, 1, "w".data, 1, 8, 1⟩ : BoundingBox) ∈
      ([[⟨0, 0, 1, 1, "w".data, 1, 8, 1⟩]] : List (List BoundingBox)).flatten ∧
    fast_ensemble_voting [[]] = [] := by
  constructor
  · exact (C10_voting_invariants [[⟨0, 0, 1, 1, "w".data, 1, 8, 1⟩]]).1
      ⟨0, 0, 1, 1, "w".data, 1, 8, 1⟩ (by decide)
  · exact (C10_voting_invariants [[]]).2.2.2 rfl

theorem create_document_outline_title (input : List (ℕ × BoundingBox)) :
    (create_document_outline input).title = documentTitleOf input := by
  unfold create_document_outline
  split_ifs with h1 h2
  · rw [h1]; rfl
  · rfl
  · rfl

/-- C5: the document title is the text of the first maximum-font-size
detection on page 0 (the fold keeps the first maximum), the empty string
when page 0 has no detections, and only that occurrence is excluded from
classification: in C5input a value-identical copy of the title detection on
page 1 is still classified (it is the only outline entry). -/
theorem C5_title_selection :
    (∀ input : List (ℕ × BoundingBox),
      (create_document_outline input).title = documentTitleOf input) ∧
    (∀ (input : List (ℕ × BoundingBox)) (t : ℕ × ℕ × BoundingBox)
        (ts : List (ℕ × ℕ × BoundingBox)),
      input.enum.filter (fun p => p.2.1 == 0) = t :: ts →
        documentTitleOf input = (foldMaxBy (fun v => v.2.2.font_size) t ts).2.2.text ∧
        (∀ u ∈ t :: ts,
          u.2.2.font_size ≤ (foldMaxBy (fun v => v.2.2.font_size) t ts).2.2.font_size) ∧
        ((t :: ts).dropWhile
            (fun u => decide (u.2.2.font_size <
              (foldMaxBy (fun v => v.2.2.font_size) t ts).2.2.font_size))).head? =
          some (foldMaxBy (fun v => v.2.2.font_size) t ts)) ∧
    (∀ input : List (ℕ × BoundingBox),
      input.enum.filter (fun p => p.2.1 == 0) = [] → documentTitleOf input = []) ∧
    create_document_outline C5input =
      ⟨"Chapter One".data, [⟨HeadingLevel.H1, "Chapter One".data, 1⟩]⟩ := by
  refine ⟨create_document_outline_title, ?_, ?_, by decide⟩
  · intro input t ts h
    have htitle : titleEntry? input = some (foldMaxBy (fun v => v.2.2.font_size) t ts) := by
      unfold titleEntry?
      rw [h]
    refine ⟨?_, foldMaxBy_le _ ts t, foldMaxBy_first _ ts t⟩
    unfold documentTitleOf
    rw [htitle]
  · intro input h
    have htitle : titleEntry? input = none := by
      unfold titleEntry?
      rw [h]
    unfold documentTitleOf
    rw [htitle]

/-- Witness for C5: the title formula applied to a one-detection page 0,
and the empty-title case for an input with nothing on page 0. -/
theorem C5_title_selection_witness :
    documentTitleOf [(0, (⟨0, 0, 10, 10, "Solo".data, 1, 12, 100⟩ : BoundingBox))] =
      (foldMaxBy (fun v => v.2.2.font_size)
        (0, 0, (⟨0, 0, 10, 10, "Solo".data, 1, 12, 100⟩ : BoundingBox)) []).2.2.text ∧
    documentTitleOf [(1, (⟨0, 0, 10, 10, "Solo".data, 1, 12, 100⟩ : BoundingBox))] = [] := by
  constructor
  · exact (C5_title_selection.2.1 [(0, ⟨0, 0, 10, 10, "Solo".data, 1, 12, 100⟩)]
      (0, 0, ⟨0, 0, 10, 10, "Solo".data, 1, 12, 100⟩) [] (by decide)).1
  · exact C5_title_selection.2.2.1 [(1, ⟨0, 0, 10, 10, "Solo".data, 1, 12, 100⟩)] (by decide)

/-- C6: the heading thresholds are median * 1.6 and median * 1.3 where the
median is the positional middle element of the sorted font sizes of
detections with text longer than 2 characters; with no such detection the
result is the title with an empty outline; for sizes [8,10,10,12,30] the
median is 10, not the mean 14. -/
theorem C6_median_thresholds :
    (∀ input : List (ℕ × BoundingBox),
      h1Threshold input = medianSize input * (8/5) ∧
      h2Threshold input = medianSize input * (13/10) ∧
      medianSize input = (sortedSizes input).getD ((sortedSizes input).length / 2) 0) ∧
    (∀ input : List (ℕ × BoundingBox), fontSizesOf input = [] →
      create_document_outline input = ⟨documentTitleOf input, []⟩) ∧
    sortedSizes C6input = [8, 10, 10, 12, 30] ∧
    medianSize C6input = 10 ∧
    medianSize C6input ≠ (8 + 10 + 10 + 12 + 30) / 5 := by
  refine ⟨fun input => ⟨rfl, rfl, rfl⟩, ?_, by decide, by decide, by decide⟩
  intro input h
  unfold create_document_outline
  split_ifs with h1
  · rw [h1]
    rfl
  · rfl

/-- Witness for C6: an input whose only text has length 2 yields the title
with an empty outline. -/
theorem C6_median_thresholds_witness :
    create_document_outline [(0, (⟨0, 0, 5, 5, "ab".data, 1, 20, 25⟩ : BoundingBox))] =
      ⟨documentTitleOf [(0, (⟨0, 0, 5, 5, "ab".data, 1, 20, 25⟩ : BoundingBox))], []⟩ :=
  C6_median_thresholds.2.1 [(0, ⟨0, 0, 5, 5, "ab".data, 1, 20, 25⟩)] (by decide)

theorem codeEntry_eq_spec (tIdx : Option ℕ) (h1 h2 : ℚ) (t : ℕ × ℕ × BoundingBox)
    (hle : h2 ≤ h1) :
    codeEntry tIdx h1 h2 t =
      if tIdx = some t.1 then none
      else (specHeadingLevel h1 h2 t.2.2).map (fun lv => ⟨lv, t.2.2.text, t.2.1⟩) := by
  unfold codeEntry specHeadingLevel
  by_cases ht : tIdx = some t.1
  · rw [if_pos ht, if_pos ht]
  · rw [if_neg ht, if_neg ht]
    by_cases hrej : t.2.2.text.length < 3 ∨ 120 < t.2.2.text.length ∨
        endsWithDot t.2.2.text = true ∨ 10 < t.2.2.text.count ' '
    · rw [if_pos hrej]
      have hs : ¬ (3 ≤ t.2.2.text.length ∧ t.2.2.text.length ≤ 120 ∧
          endsWithDot t.2.2.text = false ∧ t.2.2.text.count ' ' ≤ 10 ∧
          h2 ≤ t.2.2.font_size) := by
        intro hc
        rcases hrej with h | h | h | h
        · omega
        · omega
        · rw [hc.2.2.1] at h
          exact Bool.false_ne_true h
        · omega
      rw [if_neg hs]
      rfl
    · rw [if_neg hrej]
      push_neg at hrej
      obtain ⟨hl3, hl120, hdot, hsp⟩ := hrej
      have hdot' : endsWithDot t.2.2.text = false := by
        cases hE : endsWithDot t.2.2.text
        · rfl
        · exact absurd hE hdot
      by_cases hf1 : h1 ≤ t.2.2.font_size
      · rw [if_pos hf1]
        rw [if_pos ⟨by omega, by omega, hdot', by omega, le_trans hle hf1⟩]
        rw [if_pos hf1]
        rfl
      · rw [if_neg hf1]
        by_cases hf2 : h2 ≤ t.2.2.font_size
        · rw [if_pos hf2]
          rw [if_pos ⟨by omega, by omega, hdot', by omega, hf2⟩]
          rw [if_neg hf1]
          rfl
        · rw [if_neg hf2]
          have hs : ¬ (3 ≤ t.2.2.text.length ∧ t.2.2.text.length ≤ 120 ∧
              endsWithDot t.2.2.text = false ∧ t.2.2.text.count ' ' ≤ 10 ∧
              h2 ≤ t.2.2.font_size) := fun hc => hf2 hc.2.2.2.2
          rw [if_neg hs]
          rfl

/-- C7: with a nonnegative median (every pipeline font size is at least 8),
the outline of a non-degenerate input consists exactly of the non-title
sorted entries passing the spec's candidate filter (length in [3,120], no
trailing period, at most 10 spaces, font size at least the H2 threshold),
classified H1 at or above the H1 threshold and H2 otherwise; below-H2
candidates produce no entry. -/
theorem C7_outline_classification :
    ∀ input : List (ℕ × BoundingBox), 0 ≤ medianSize input → input ≠ [] →
      fontSizesOf input ≠ [] →
      (create_document_outline input).outline =
        (sortedEntriesOf input).filterMap (fun t =>
          if titleIdxOf input = some t.1 then none
          else (specHeadingLevel (h1Threshold input) (h2Threshold input) t.2.2).map
            (fun lv => ⟨lv, t.2.2.text, t.2.1⟩)) := by
  intro input hm hne hfs
  have hle : h2Threshold input ≤ h1Threshold input := by
    unfold h1Threshold h2Threshold
    linarith
  unfold create_document_outline
  rw [if_neg hne, if_neg hfs]
  exact List.filterMap_congr
    (fun t _ => codeEntry_eq_spec (titleIdxOf input) (h1Threshold input) (h2Threshold input) t hle)

/-- Witness for C7 at C7input (median 10 is nonnegative). -/
theorem C7_outline_classification_witness :
    (create_document_outline C7input).outline =
      (sortedEntriesOf C7input).filterMap (fun t =>
        if titleIdxOf C7input = some t.1 then none
        else (specHeadingLevel (h1Threshold C7input) (h2Threshold C7input) t.2.2).map
          (fun lv => ⟨lv, t.2.2.text, t.2.1⟩)) :=
  C7_outline_classification C7input (by decide) (by decide) (by decide)

theorem find?_cons_pos {α : Type} (p : α → Bool) (a : α) (l : List α) (h : p a = true) :
    List.find? p (a :: l) = some a := by
  rw [List.find?_cons, h]

theorem find?_cons_neg {α : Type} (p : α → Bool) (a : α) (l : List α) (h : p a = false) :
    List.find? p (a :: l) = List.find? p l := by
  rw [List.find?_cons, h]

theorem routeCompletions_aux (cs : List ((ℕ × Engine) × List BoundingBox)) :
    ∀ (m : PageMap) (p : ℕ) (e : Engine),
      List.foldl routeStep m cs p e =
        match cs.reverse.find? (fun c => decide (c.1 = (p, e))) with
        | some c => some c.2
        | none => m p e := by
  induction cs with
  | nil => intro m p e; rfl
  | cons c cs ih =>
    intro m p e
    rw [List.foldl_cons, ih (routeStep m c) p e]
    rw [List.reverse_cons, List.find?_append]
    cases hfind : cs.reverse.find? (fun d => decide (d.1 = (p, e))) with
    | some d => rfl
    | none =>
      by_cases hk : c.1 = (p, e)
      · have hpe : p = c.1.1 ∧ e = c.1.2 := by
          rw [hk]
          exact ⟨rfl, rfl⟩
        rw [find?_cons_pos (fun d => decide (d.1 = (p, e))) c [] (decide_eq_true hk)]
        show routeStep m c p e = some c.2
        unfold routeStep
        rw [if_pos hpe]
      · have hpe : ¬ (p = c.1.1 ∧ e = c.1.2) := by
          intro hc
          exact hk (Prod.ext hc.1.symm hc.2.symm)
        rw [find?_cons_neg (fun d => decide (d.1 = (p, e))) c [] (decide_eq_false hk)]
        show routeStep m c p e = m p e
        unfold routeStep
        rw [if_neg hpe]

/-- With pairwise-distinct keys, the first match is the only match, so the
arrival order is irrelevant to find?. -/
theorem find?_key_reverse (k : ℕ × Engine) :
    ∀ cs : List ((ℕ × Engine) × List BoundingBox),
      (cs.map Prod.fst).Nodup →
      cs.reverse.find? (fun c => decide (c.1 = k)) =
        cs.find? (fun c => decide (c.1 = k)) := by
  intro cs
  induction cs with
  | nil => intro _; rfl
  | cons c cs ih =>
    intro hnd
    rw [List.map_cons, List.nodup_cons] at hnd
    rw [List.reverse_cons, List.find?_append]
    by_cases hk : c.1 = k
    · have hnone : cs.reverse.find? (fun d => decide (d.1 = k)) = none := by
        rw [List.find?_eq_none]
        intro x hx hpx
        have hxk : x.1 = k := of_decide_eq_true hpx
        apply hnd.1
        rw [hk, ← hxk]
        exact List.mem_map_of_mem Prod.fst (List.mem_reverse.mp hx)
      rw [hnone, find?_cons_pos (fun d => decide (d.1 = k)) c [] (decide_eq_true hk),
        find?_cons_pos (fun d => decide (d.1 = k)) c cs (decide_eq_true hk)]
      rfl
    · rw [ih hnd.2, find?_cons_neg (fun d => decide (d.1 = k)) c [] (decide_eq_false hk),
        find?_cons_neg (fun d => decide (d.1 = k)) c cs (decide_eq_false hk)]
      exact Option.or_none

theorem submitJobs_fst_lt (n : ℕ) : ∀ k ∈ submitJobs n, k.1 < n := by
  intro k hk
  unfold submitJobs at hk
  rcases List.mem_flatMap.mp hk with ⟨i, hi, hk2⟩
  have hin : i < n := List.mem_range.mp hi
  rcases List.mem_cons.mp hk2 with h | h
  · rw [h]; exact hin
  · rcases List.mem_cons.mp h with h' | h'
    · rw [h']; exact hin
    · simp at h'

theorem submitJobs_nodup (n : ℕ) : (submitJobs n).Nodup := by
  induction n with
  | zero => exact List.Pairwise.nil
  | succ n ih =>
    unfold submitJobs at ih ⊢
    rw [List.range_succ, List.flatMap_append]
    refine List.Nodup.append ih ?_ ?_
    · show ([(n, Engine.tesseract), (n, Engine.easyocr)] ++ []).Nodup
      simp
    · intro k hk1 hk2
      have hlt : k.1 < n := submitJobs_fst_lt n k hk1
      have : k = (n, Engine.tesseract) ∨ k = (n, Engine.easyocr) := by
        simpa using hk2
      rcases this with h | h <;> rw [h] at hlt <;> exact absurd hlt (lt_irrefl n)

/-- C2: the mapping built from tagged job completions depends only on the
tags, not the completion order: routing the completions in reverse of
submission order yields the same page/engine mapping as submission order. -/
theorem C2_dispatch_order_independent (n : ℕ) (results : ℕ × Engine → List BoundingBox) :
    routeCompletions (completionsOf n results).reverse =
      routeCompletions (completionsOf n results) := by
  have hnd : ((completionsOf n results).map Prod.fst).Nodup := by
    unfold completionsOf
    rw [List.map_map]
    have hcomp : (Prod.fst ∘ fun k => (k, results k)) = id := rfl
    rw [hcomp, List.map_id]
    exact submitJobs_nodup n
  funext p e
  show List.foldl routeStep (fun _ _ => none) (completionsOf n results).reverse p e =
    List.foldl routeStep (fun _ _ => none) (completionsOf n results) p e
  rw [routeCompletions_aux, routeCompletions_aux, List.reverse_reverse]
  rw [find?_key_reverse (p, e) (completionsOf n results) hnd]

/-- Counterexample for C8: when the renderer yields no pages the source
logs and returns; the process exit status is 0, not a distinct non-zero
error status, although no partial output is written. -/
theorem C8_counterexample :
    (process_single_pdf_fast [] (fun _ _ => [])).exitCode = 0 ∧
    (process_single_pdf_fast [] (fun _ _ => [])).written = none ∧
    (process_single_pdf_fast [] (fun _ _ => [])).errorLogged = true :=
  ⟨rfl, rfl, rfl⟩

/-- C8 (amended): with no pages the document is aborted with no output
written and an error logged, but the failure is reported only through the
log: the function returns normally and the exit status stays 0 on every
path of the model (sys.exit(1) is reachable only from the except-branch). -/
theorem C8_no_pages_behavior :
    (∀ run : Engine → PageImage → List BoundingBox,
      process_single_pdf_fast [] run = ⟨none, 0, true⟩) ∧
    (∀ (pages : List PageImage) (run : Engine → PageImage → List BoundingBox),
      (process_single_pdf_fast pages run).exitCode = 0) := by
  refine ⟨fun _ => rfl, ?_⟩
  intro pages run
  cases pages with
  | nil => rfl
  | cons p rest => rfl

/-- Counterexample for C9: a tesseract row with width 0 and admissible text
and confidence produces a detection with x2 = x1 and cached area 0; the
adapter does not discard it. -/
theorem C9_counterexample :
    run_tesseract [⟨"ab".data, 90, 0, 0, 0, 5⟩] =
      [⟨0, 0, 0, 5, "ab".data, 9/10, 8, 0⟩] ∧
    ¬ ((⟨0, 0, 0, 5, "ab".data, 9/10, 8, 0⟩ : BoundingBox).x1 <
        (⟨0, 0, 0, 5, "ab".data, 9/10, 8, 0⟩ : BoundingBox).x2) := by
  constructor
  · decide
  · decide

/-- C9 (amended): the adapters filter only on confidence and stripped text
length, so degenerate boxes are not discarded; what does hold is that every
produced detection has a consistent cached area and font size at least 8,
and every EasyOCR detection additionally satisfies x1 ≤ x2 and y1 ≤ y2
since its corners are aggregated with min/max. -/
theorem C9_adapter_invariants (rows : List TessRow) (ready : Bool) (erows : List EasyRow) :
    (∀ b ∈ run_tesseract rows, cachedArea b ∧ 8 ≤ b.font_size) ∧
    (∀ b ∈ run_easyocr ready erows,
      b.x1 ≤ b.x2 ∧ b.y1 ≤ b.y2 ∧ cachedArea b ∧ 8 ≤ b.font_size) := by
  constructor
  · intro b hb
    unfold run_tesseract at hb
    rcases List.mem_filterMap.mp hb with ⟨r, _, heq⟩
    by_cases hc : 1 < (pyStrip r.text).length ∧ 30 < r.conf
    · rw [if_pos hc] at heq
      cases Option.some_inj.mp heq
      exact ⟨mkBoundingBox_cachedArea _ _ _ _ _ _ _, le_max_left 8 _⟩
    · rw [if_neg hc] at heq
      exact Option.noConfusion heq
  · intro b hb
    unfold run_easyocr at hb
    cases ready with
    | false => simp at hb
    | true =>
      rw [if_pos rfl] at hb
      rcases List.mem_filterMap.mp hb with ⟨r, _, heq⟩
      by_cases hc : 2/5 < r.conf ∧ 1 < (pyStrip r.text).length
      · rw [if_pos hc] at heq
        cases Option.some_inj.mp heq
        refine ⟨?_, ?_, mkBoundingBox_cachedArea _ _ _ _ _ _ _, le_max_left 8 _⟩
        · show min (min r.p1.1 r.p2.1) (min r.p3.1 r.p4.1) ≤
            max (max r.p1.1 r.p2.1) (max r.p3.1 r.p4.1)
          calc min (min r.p1.1 r.p2.1) (min r.p3.1 r.p4.1)
              ≤ min r.p1.1 r.p2.1 := min_le_left _ _
            _ ≤ r.p1.1 := min_le_left _ _
            _ ≤ max r.p1.1 r.p2.1 := le_max_left _ _
            _ ≤ max (max r.p1.1 r.p2.1) (max r.p3.1 r.p4.1) := le_max_left _ _
        · show min (min r.p1.2 r.p2.2) (min r.p3.2 r.p4.2) ≤
            max (max r.p1.2 r.p2.2) (max r.p3.2 r.p4.2)
          calc min (min r.p1.2 r.p2.2) (min r.p3.2 r.p4.2)
              ≤ min r.p1.2 r.p2.2 := min_le_left _ _
            _ ≤ r.p1.2 := min_le_left _ _
            _ ≤ max r.p1.2 r.p2.2 := le_max_left _ _
            _ ≤ max (max r.p1.2 r.p2.2) (max r.p3.2 r.p4.2) := le_max_left _ _
      · rw [if_neg hc] at heq
        exact Option.noConfusion heq

/-- Witness for C9's amended invariants at concrete adapter outputs. -/
theorem C9_adapter_invariants_witness :
    (cachedArea (⟨0, 0, 4, 10, "abc".data, 9/10, 8, 40⟩ : BoundingBox) ∧
      8 ≤ (⟨0, 0, 4, 10, "abc".data, 9/10, 8, 40⟩ : BoundingBox).font_size) ∧
    ((⟨0, 0, 4, 10, "xyz".data, 1/2, 8, 40⟩ : BoundingBox).x1 ≤
        (⟨0, 0, 4, 10, "xyz".data, 1/2, 8, 40⟩ : BoundingBox).x2 ∧
      (⟨0, 0, 4, 10, "xyz".data, 1/2, 8, 40⟩ : BoundingBox).y1 ≤
        (⟨0, 0, 4, 10, "xyz".data, 1/2, 8, 40⟩ : BoundingBox).y2 ∧
      cachedArea (⟨0, 0, 4, 10, "xyz".data, 1/2, 8, 40⟩ : BoundingBox) ∧
      8 ≤ (⟨0, 0, 4, 10, "xyz".data, 1/2, 8, 40⟩ : BoundingBox).font_size) := by
  constructor
  · exact (C9_adapter_invariants [⟨"abc".data, 90, 0, 0, 4, 10⟩] true []).1
      ⟨0, 0, 4, 10, "abc".data, 9/10, 8, 40⟩ (by decide)
  · exact (C9_adapter_invariants [] true
      [⟨(0, 0), (4, 0), (4, 10), (0, 10), "xyz".data, 1/2⟩]).2
      ⟨0, 0, 4, 10, "xyz".data, 1/2, 8, 40⟩ (by decide)
